import Mathlib

/-! Shallow embedding of the metrics aggregation engine of the
System-Monitor-with-Rust repository (src/app.rs, src/system_info.rs).

Modelling conventions:
* Rust u64 / u32 / usize values are modelled as Nat; u64 saturating_sub
  coincides with truncated Nat subtraction.
* Rust f32 / f64 values are modelled as Rat, eliding rounding; division of a
  finite float by zero produces NaN or an infinity, which we model as none
  via fdiv below wherever the source can divide by zero.
* VecDeque push_back / pop_front becomes appending to the back of a List and
  dropping its head.
-/

/-- IEEE float division as used by the source: dividing by zero does not
produce a rational number (NaN or an infinity), modelled as none; otherwise
the exact quotient (the usual rational idealisation of float arithmetic). -/
def fdiv (a b : ℚ) : Option ℚ :=
  if b = 0 then none else some (a / b)

/-- The history bound, app.rs line 47: let history_len = 60 * 4. -/
def cpuHistoryLen : ℕ := 60 * 4

/-- One bounded-history push, the pattern at app.rs lines 96-102, 115-120 and
144-149: push_back the value, then pop_front exactly when the length now
exceeds the capacity. -/
def pushBounded (cap : ℕ) (xs : List α) (x : α) : List α :=
  let ys := xs ++ [x]
  if cap < ys.length then ys.tail else ys

/-- Repeated pushes into an initially empty bounded history. -/
def pushMany (cap : ℕ) (vals : List α) : List α :=
  vals.foldl (pushBounded cap) []

/-- The mean computed at app.rs line 106:
cpu_usage.iter().sum::<f32>() / cpu_usage.len() as f32.
For an empty list this is the float division 0.0 / 0.0. -/
def cpuAverageOf (cpu_usage : List ℚ) : Option ℚ :=
  fdiv cpu_usage.sum (cpu_usage.length : ℚ)

/-- One per-field speed, app.rs lines 141-142:
((current.saturating_sub(previous) as f64) / 0.25) as u64. -/
def rateOf (delta : ℕ) : ℕ :=
  (⌊(delta : ℚ) / 0.25⌋).toNat

/-- The (download_speed, upload_speed) pair of app.rs lines 141-142. -/
def networkSpeeds (prev cur : ℕ × ℕ) : ℕ × ℕ :=
  (rateOf (cur.1 - prev.1), rateOf (cur.2 - prev.2))

/-- The rate sample produced by one tick, app.rs lines 138-150: none when no
previous snapshot exists (nothing is pushed), otherwise the speed pair. -/
def networkRate (prev : Option (ℕ × ℕ)) (cur : ℕ × ℕ) : Option (ℕ × ℕ) :=
  match prev with
  | some p => some (networkSpeeds p cur)
  | none => none

/-- Modelled from the spec, section 4.2 RateCalculator (no function in the
source takes an interval argument): given previous, current and the
caller-measured intervalSeconds, the per-field rate is the saturating delta
divided by intervalSeconds, rounded down to an integer byte rate; none when
previous is absent. -/
def rateCalculatorSpec (previous : Option (ℕ × ℕ)) (current : ℕ × ℕ)
    (intervalSeconds : ℚ) : Option (ℕ × ℕ) :=
  match previous with
  | some p => some
      ((⌊((current.1 - p.1 : ℕ) : ℚ) / intervalSeconds⌋).toNat,
       (⌊((current.2 - p.2 : ℕ) : ℚ) / intervalSeconds⌋).toNat)
  | none => none

/-- Summing received and transmitted bytes over all interfaces,
app.rs lines 127-135. -/
def aggregateCounters (ifaces : List (ℕ × ℕ)) : ℕ × ℕ :=
  (ifaces.foldl (fun acc n => acc + n.1) 0,
   ifaces.foldl (fun acc n => acc + n.2) 0)

/-- The state of App (app.rs lines 10-31) that the update path touches.
cpu_average is Option ℚ: none models a NaN stored in the f32 field. -/
structure AppState where
  cpu_history : List (List ℚ)
  memory_history : List (ℕ × ℕ)
  network_history : List (ℕ × ℕ)
  prev_network_data : Option (ℕ × ℕ)
  cpu_average : Option ℚ
deriving DecidableEq

/-- One reading handed to App::update, gathered by the sysinfo refresh:
per-core CPU usage, used and total memory, and the per-interface
(received, transmitted) counters. -/
structure MetricsReading where
  cpus : List ℚ
  used_memory : ℕ
  total_memory : ℕ
  interfaces : List (ℕ × ℕ)

/-- App::new, app.rs lines 36-67: empty histories except for one initial
all-zero CPU sample pushed at line 64, no previous network data, average 0. -/
def App.new (cpu_count : ℕ) : AppState :=
  { cpu_history := [List.replicate cpu_count 0]
    memory_history := []
    network_history := []
    prev_network_data := none
    cpu_average := some 0 }

/-- App::update_cpu_data, app.rs lines 87-107. -/
def update_cpu_data (s : AppState) (cpu_usage : List ℚ) : AppState :=
  { s with
      cpu_history := pushBounded cpuHistoryLen s.cpu_history cpu_usage
      cpu_average := cpuAverageOf cpu_usage }

/-- App::update_memory_data, app.rs lines 110-121. -/
def update_memory_data (s : AppState) (used total : ℕ) : AppState :=
  { s with
      memory_history := pushBounded cpuHistoryLen s.memory_history (used, total) }

/-- App::update_network_data, app.rs lines 124-154: sum the interface
counters; if a previous snapshot exists push the speed pair; store the new
snapshot unconditionally. -/
def update_network_data (s : AppState) (ifaces : List (ℕ × ℕ)) : AppState :=
  let tot := aggregateCounters ifaces
  match s.prev_network_data with
  | some prev =>
      { s with
          network_history :=
            pushBounded cpuHistoryLen s.network_history (networkSpeeds prev tot)
          prev_network_data := some tot }
  | none => { s with prev_network_data := some tot }

/-- App::update, app.rs lines 70-84: refresh then the three update steps. -/
def update (s : AppState) (r : MetricsReading) : AppState :=
  update_network_data
    (update_memory_data (update_cpu_data s r.cpus) r.used_memory r.total_memory)
    r.interfaces

/-- A whole run of ticks from a start state. -/
def runTicks (s : AppState) (rs : List MetricsReading) : AppState :=
  rs.foldl update s

/-- App::memory_usage_percent, app.rs lines 172-181. -/
def memory_usage_percent (used total : ℕ) : ℚ :=
  if 0 < (total : ℚ) then ((used : ℚ) / (total : ℚ)) * 100 else 0

/-- The unit table of App::format_bytes, app.rs line 185. -/
def UNITS : List String := ["B", "KB", "MB", "GB", "TB"]

/-- The while loop of App::format_bytes, app.rs lines 190-193, written with
explicit fuel: the guard unit_index < UNITS.length - 1 bounds the iteration
count by UNITS.length - 1, so running with that much fuel is exact. -/
def formatLoop : ℕ → ℚ → ℕ → ℚ × ℕ
  | 0, size, unit_index => (size, unit_index)
  | fuel + 1, size, unit_index =>
    if 1024 ≤ size ∧ unit_index < UNITS.length - 1 then
      formatLoop fuel (size / 1024) (unit_index + 1)
    else (size, unit_index)

/-- Rendering of format!(..., size) with one decimal digit, for the
nonnegative sizes the source feeds it: the value rounded to tenths, printed
as integer part, dot, one digit. (Rust breaks ties to even; none of the
inputs verified below is a tie.) -/
def formatOneDecimal (q : ℚ) : String :=
  let t : ℤ := round (q * 10)
  toString (t / 10) ++ "." ++ toString (t % 10)

/-- App::format_bytes, app.rs lines 184-196. -/
def format_bytes (bytes : ℕ) : String :=
  let p := formatLoop (UNITS.length - 1) (bytes : ℚ) 0
  formatOneDecimal p.1 ++ " " ++ UNITS.getD p.2 ""

/-- The Rust cast (x : f32) as u32, used at system_info.rs lines 157 and 177:
truncation toward zero, saturating at 0 below and at 2^32 - 1 above. -/
def f32_as_u32 (q : ℚ) : ℕ :=
  if q ≤ 0 then 0 else min (⌊q⌋).toNat (2 ^ 32 - 1)

inductive TemperatureCategory where
  | Cool | Normal | Warm | Hot | Critical
deriving DecidableEq

/-- categorize_temperature, system_info.rs lines 156-164: match on the u32
cast of the f32 against the ranges 0..=40, 41..=60, 61..=75, 76..=85, 86.. -/
def categorize_temperature (temp : ℚ) : TemperatureCategory :=
  if f32_as_u32 temp ≤ 40 then .Cool
  else if f32_as_u32 temp ≤ 60 then .Normal
  else if f32_as_u32 temp ≤ 75 then .Warm
  else if f32_as_u32 temp ≤ 85 then .Hot
  else .Critical

inductive DiskUsageCategory where
  | Normal | Warning | Critical | Full
deriving DecidableEq

/-- categorize_disk_usage, system_info.rs lines 176-183: ranges 0..=70,
71..=85, 86..=95, 96.. on the u32 cast. -/
def categorize_disk_usage (usage_percent : ℚ) : DiskUsageCategory :=
  if f32_as_u32 usage_percent ≤ 70 then .Normal
  else if f32_as_u32 usage_percent ≤ 85 then .Warning
  else if f32_as_u32 usage_percent ≤ 95 then .Critical
  else .Full

/-- The comparator of App::top_processes, app.rs line 211:
b.1 compared against a.1, i.e. sorting by CPU usage descending.
(The NaN branch of the Rust comparator has no rational counterpart.) -/
def processLE (a b : String × ℚ × ℕ) : Bool :=
  decide (b.2.1 ≤ a.2.1)

/-- App::top_processes, app.rs lines 199-215: stable sort by CPU descending,
then take the first 10. -/
def top_processes (processes : List (String × ℚ × ℕ)) : List (String × ℚ × ℕ) :=
  (processes.mergeSort processLE).take 10

/-! ### Helper lemmas -/

lemma update_fields (s : AppState) (r : MetricsReading) :
    (update s r).cpu_history = pushBounded cpuHistoryLen s.cpu_history r.cpus ∧
    (update s r).memory_history =
      pushBounded cpuHistoryLen s.memory_history (r.used_memory, r.total_memory) ∧
    (update s r).prev_network_data = some (aggregateCounters r.interfaces) ∧
    (update s r).cpu_average = cpuAverageOf r.cpus ∧
    (update s r).network_history =
      (match s.prev_network_data with
        | some p => pushBounded cpuHistoryLen s.network_history
            (networkSpeeds p (aggregateCounters r.interfaces))
        | none => s.network_history) := by
  obtain ⟨ch, mh, nh, pd, ca⟩ := s
  cases pd <;> exact ⟨rfl, rfl, rfl, rfl, rfl⟩

lemma pushBounded_length (cap : ℕ) (xs : List α) (x : α) (h : xs.length ≤ cap) :
    (pushBounded cap xs x).length = min (xs.length + 1) cap := by
  simp only [pushBounded]
  split_ifs with h1 <;> simp_all [List.length_tail] <;> omega

/-! ### Claim theorems -/

/-- C9: the memory-usage accessor returns used/total*100, and 0 (instead of
dividing by zero) whenever the total is 0. -/
theorem memory_percent_correct (u t : ℕ) :
    (0 < t → memory_usage_percent u t = ((u : ℚ) / (t : ℚ)) * 100) ∧
    (t = 0 → memory_usage_percent u t = 0) := by
  constructor
  · intro h
    rw [memory_usage_percent, if_pos (by exact_mod_cast h)]
  · intro h
    subst h
    simp [memory_usage_percent]

/-- Witness for C9 at used 50, total 200 (25 percent) and at total 0. -/
theorem memory_percent_correct_witness :
    memory_usage_percent 50 200 = 25 ∧ memory_usage_percent 7 0 = 0 := by
  constructor
  · rw [(memory_percent_correct 50 200).1 (by norm_num)]
    norm_num
  · exact (memory_percent_correct 7 0).2 rfl

/-- C10: every strictly negative temperature saturates to 0 in the u32 cast
and therefore lands in the lowest band, Cool. -/
theorem negative_temperature_cool (q : ℚ) (h : q < 0) :
    f32_as_u32 q = 0 ∧ categorize_temperature q = .Cool := by
  have h0 : f32_as_u32 q = 0 := by
    rw [f32_as_u32, if_pos (le_of_lt h)]
  exact ⟨h0, by simp [categorize_temperature, h0]⟩

/-- Witness for C10 at -5.5 degrees. -/
theorem negative_temperature_cool_witness :
    f32_as_u32 (-11 / 2) = 0 ∧ categorize_temperature (-11 / 2) = .Cool :=
  negative_temperature_cool (-11 / 2) (by norm_num)

/-- C8: both classifiers act on the truncated (u32-cast) band with the stated
boundaries: temperature ≤40 Cool, 41-60 Normal, 61-75 Warm, 76-85 Hot, 86+
Critical; disk ≤70 Normal, 71-85 Warning, 86-95 Critical, 96+ Full; the
fractional inputs 40.9 and 70.9 fall into the lower bands Cool and Normal. -/
theorem classifier_bands (q : ℚ) :
    ((categorize_temperature q = .Cool ↔ f32_as_u32 q ≤ 40) ∧
     (categorize_temperature q = .Normal ↔ 41 ≤ f32_as_u32 q ∧ f32_as_u32 q ≤ 60) ∧
     (categorize_temperature q = .Warm ↔ 61 ≤ f32_as_u32 q ∧ f32_as_u32 q ≤ 75) ∧
     (categorize_temperature q = .Hot ↔ 76 ≤ f32_as_u32 q ∧ f32_as_u32 q ≤ 85) ∧
     (categorize_temperature q = .Critical ↔ 86 ≤ f32_as_u32 q)) ∧
    ((categorize_disk_usage q = .Normal ↔ f32_as_u32 q ≤ 70) ∧
     (categorize_disk_usage q = .Warning ↔ 71 ≤ f32_as_u32 q ∧ f32_as_u32 q ≤ 85) ∧
     (categorize_disk_usage q = .Critical ↔ 86 ≤ f32_as_u32 q ∧ f32_as_u32 q ≤ 95) ∧
     (categorize_disk_usage q = .Full ↔ 96 ≤ f32_as_u32 q)) ∧
    (categorize_temperature 40.9 = .Cool ∧ categorize_disk_usage 70.9 = .Normal) := by
  have h409 : f32_as_u32 (40.9 : ℚ) = 40 := by
    rw [f32_as_u32, if_neg (by norm_num), min_eq_left (by norm_num)]
    norm_num
    decide
  have h709 : f32_as_u32 (70.9 : ℚ) = 70 := by
    rw [f32_as_u32, if_neg (by norm_num), min_eq_left (by norm_num)]
    norm_num
    decide
  refine ⟨?_, ?_, by simp [categorize_temperature, categorize_disk_usage, h409, h709]⟩
  · simp only [categorize_temperature]
    split_ifs <;> simp_all <;> omega
  · simp only [categorize_disk_usage]
    split_ifs <;> simp_all <;> omega

/-- C6: a counter regression (current below previous) is clamped to a zero
delta by saturating subtraction, yielding a 0 B/s rate, never a negative or
wrapped value. -/
theorem counter_regression_clamped (p c : ℕ × ℕ) :
    (c.1 ≤ p.1 → (networkSpeeds p c).1 = 0) ∧
    (c.2 ≤ p.2 → (networkSpeeds p c).2 = 0) ∧
    (c.1 ≤ p.1 → c.2 ≤ p.2 → networkRate (some p) c = some (0, 0)) := by
  have hz : rateOf 0 = 0 := by norm_num [rateOf]
  refine ⟨fun h => ?_, fun h => ?_, fun h1 h2 => ?_⟩
  · simp [networkSpeeds, Nat.sub_eq_zero_of_le h, hz]
  · simp [networkSpeeds, Nat.sub_eq_zero_of_le h, hz]
  · simp [networkRate, networkSpeeds, Nat.sub_eq_zero_of_le h1,
      Nat.sub_eq_zero_of_le h2, hz]

/-- Witness for C6 at the spec fixture: previous (5000, 0), current (4000, 0)
gives the rate sample (0, 0). -/
theorem counter_regression_clamped_witness :
    networkRate (some (5000, 0)) (4000, 0) = some (0, 0) :=
  (counter_regression_clamped (5000, 0) (4000, 0)).2.2 (by norm_num) (le_refl 0)

/-- C2 (amended): the rate step produces no sample on the first tick, and on
every later tick it equals the spec RateCalculator applied with the
hard-coded interval of 0.25 seconds (app.rs line 141), not with a
caller-measured elapsed time; with previous (1000, 2000) and current
(1500, 2000) it returns 2000 B/s down and 0 B/s up. -/
theorem rate_first_tick_and_fixed_interval (p c : ℕ × ℕ) :
    networkRate none c = none ∧
    networkRate (some p) c = rateCalculatorSpec (some p) c 0.25 ∧
    networkRate (some (1000, 2000)) (1500, 2000) = some (2000, 0) :=
  ⟨rfl, rfl, by norm_num [networkRate, networkSpeeds, rateOf] <;> decide⟩

/-- C2 (counterexample): at a measured elapsed time of 0.5 s the spec
RateCalculator yields 1000 B/s down, but the code divides by the hard-coded
0.25 and yields 2000 B/s: the interval is not the caller-measured time. -/
theorem rate_interval_not_measured :
    networkRate (some (1000, 2000)) (1500, 2000) = some (2000, 0) ∧
    rateCalculatorSpec (some (1000, 2000)) (1500, 2000) (1 / 2) = some (1000, 0) ∧
    networkRate (some (1000, 2000)) (1500, 2000) ≠
      rateCalculatorSpec (some (1000, 2000)) (1500, 2000) (1 / 2) := by
  have h1 : networkRate (some (1000, 2000)) (1500, 2000) = some (2000, 0) := by
    norm_num [networkRate, networkSpeeds, rateOf] <;> decide
  have h2 : rateCalculatorSpec (some (1000, 2000)) (1500, 2000) (1 / 2) =
      some (1000, 0) := by
    norm_num [rateCalculatorSpec] <;> decide
  refine ⟨h1, h2, ?_⟩
  rw [h1, h2]
  simp

/-- C1 (amended): each tick stores sum/length as the CPU average: the
arithmetic mean for a nonempty per-core list, but for an empty list the
float division 0.0/0.0 is performed, storing NaN (modelled none), not 0.0. -/
theorem cpu_average_mean (s : AppState) (r : MetricsReading) :
    (r.cpus ≠ [] →
      (update s r).cpu_average = some (r.cpus.sum / (r.cpus.length : ℚ))) ∧
    (r.cpus = [] → (update s r).cpu_average = none) := by
  have hca := (update_fields s r).2.2.2.1
  constructor
  · intro h
    have hlen : r.cpus.length ≠ 0 := by simpa [List.length_eq_zero] using h
    rw [hca]
    simp only [cpuAverageOf, fdiv]
    rw [if_neg (by exact_mod_cast hlen)]
  · intro h
    rw [hca, h]
    decide

/-- Witness for C1 (amended): per-core usages 10, 20, 30 average to 20, and
the empty per-core list stores NaN. -/
theorem cpu_average_mean_witness :
    (update (App.new 3) ⟨[10, 20, 30], 0, 0, []⟩).cpu_average = some 20 ∧
    (update (App.new 0) ⟨[], 0, 0, []⟩).cpu_average = none := by
  constructor
  · have h := (cpu_average_mean (App.new 3) ⟨[10, 20, 30], 0, 0, []⟩).1 (by simp)
    rw [h]
    norm_num
  · exact (cpu_average_mean (App.new 0) ⟨[], 0, 0, []⟩).2 rfl

/-- C1 (counterexample): after a tick with an empty per-core list the stored
CPU average is the result of the float division 0.0/0.0 (NaN, modelled
none), not 0.0: there is no zero-core guard at app.rs line 106. -/
theorem cpu_average_empty_not_zero :
    (update (App.new 0) ⟨[], 0, 0, []⟩).cpu_average ≠ some 0 := by decide

/-- C3 (counterexample): after the first tick the network-rate history has
length 0 while the CPU history has length 2 (App::new already pushed one
initial CPU sample), so the network history is not shorter than the CPU
history by exactly one. -/
theorem warmup_deficit_not_one :
    (update (App.new 1) ⟨[0], 0, 0, []⟩).cpu_history.length = 2 ∧
    (update (App.new 1) ⟨[0], 0, 0, []⟩).network_history.length = 0 ∧
    (update (App.new 1) ⟨[0], 0, 0, []⟩).network_history.length + 1 ≠
      (update (App.new 1) ⟨[0], 0, 0, []⟩).cpu_history.length := by
  decide

lemma pushBounded_evicts_at_most_one (cap : ℕ) (xs : List α) (x : α) :
    pushBounded cap xs x = xs ++ [x] ∨ pushBounded cap xs x = (xs ++ [x]).tail := by
  simp only [pushBounded]
  split_ifs <;> simp

lemma pushBounded_drop (C : ℕ) (l : List α) (x : α) :
    pushBounded C (l.drop (l.length - C)) x = (l ++ [x]).drop (l.length + 1 - C) := by
  by_cases hC : C ≤ l.length
  · have hlen : (l.drop (l.length - C)).length = C := by
      rw [List.length_drop]
      omega
    simp only [pushBounded]
    rw [if_pos (by simp [hlen])]
    rw [← List.drop_append_of_le_length (by omega : l.length - C ≤ l.length)]
    rw [List.tail_drop]
    congr 1
    omega
  · push_neg at hC
    have h1 : l.length - C = 0 := by omega
    have h2 : l.length + 1 - C = 0 := by omega
    simp only [pushBounded, h1, h2, List.drop_zero]
    rw [if_neg (by simp; omega)]

lemma pushMany_eq_drop (C : ℕ) (vals : List α) :
    pushMany C vals = vals.drop (vals.length - C) := by
  induction vals using List.reverseRecOn with
  | nil => simp [pushMany]
  | append_singleton l a ih =>
    have h : pushMany C (l ++ [a]) = pushBounded C (pushMany C l) a := by
      simp [pushMany, List.foldl_append]
    rw [h, ih, pushBounded_drop]
    simp

/-- C4: pushing N values into a bounded history of capacity C leaves exactly
the most recent min N C values in insertion order (the length-(min N C)
suffix of the pushed sequence), so the length after each push is min N C;
moreover a single push evicts at most one element, from the front. -/
theorem history_buffer_sliding_window {α : Type} (C : ℕ) (vals : List α)
    (xs : List α) (x : α) :
    pushMany C vals = vals.drop (vals.length - C) ∧
    (pushMany C vals).length = min vals.length C ∧
    (pushBounded C xs x = xs ++ [x] ∨ pushBounded C xs x = (xs ++ [x]).tail) := by
  refine ⟨pushMany_eq_drop C vals, ?_, pushBounded_evicts_at_most_one C xs x⟩
  rw [pushMany_eq_drop, List.length_drop]
  omega

lemma runTicks_append (s : AppState) (l : List MetricsReading) (a : MetricsReading) :
    runTicks s (l ++ [a]) = update (runTicks s l) a := by
  simp [runTicks, List.foldl_append]

lemma runTicks_shape (c : ℕ) (rs : List MetricsReading) :
    (runTicks (App.new c) rs).cpu_history.length = min (rs.length + 1) cpuHistoryLen ∧
    (runTicks (App.new c) rs).memory_history.length = min rs.length cpuHistoryLen ∧
    (runTicks (App.new c) rs).network_history.length = min (rs.length - 1) cpuHistoryLen ∧
    ((runTicks (App.new c) rs).prev_network_data = none ↔ rs = []) := by
  induction rs using List.reverseRecOn with
  | nil =>
    refine ⟨?_, ?_, ?_, ?_⟩ <;> simp [runTicks, App.new, cpuHistoryLen]
  | append_singleton l a ih =>
    obtain ⟨h1, h2, h3, h4⟩ := ih
    obtain ⟨g1, g2, g3, g4, g5⟩ := update_fields (runTicks (App.new c) l) a
    rw [runTicks_append]
    refine ⟨?_, ?_, ?_, ?_⟩
    · rw [g1, pushBounded_length _ _ _ (by rw [h1]; omega), h1]
      simp only [List.length_append, List.length_cons, List.length_nil]
      omega
    · rw [g2, pushBounded_length _ _ _ (by rw [h2]; omega), h2]
      simp only [List.length_append, List.length_cons, List.length_nil]
      omega
    · rcases hp : (runTicks (App.new c) l).prev_network_data with _ | p
      · have hl : l = [] := h4.mp hp
        subst hl
        rw [g5]
        simp only [hp]
        rw [h3]
        simp
      · have hl : l ≠ [] := by
          intro he
          rw [h4.mpr he] at hp
          exact Option.noConfusion hp
        have hlen := List.length_pos.mpr hl
        rw [g5]
        simp only [hp]
        rw [pushBounded_length _ _ _ (by rw [h3]; omega), h3]
        simp only [List.length_append, List.length_cons, List.length_nil]
        omega
    · rw [g3]
      simp

/-- C3 (amended): at every reachable state the network-rate history is no
longer than the memory history, and the memory history no longer than the
CPU history; after k ticks the exact lengths are min (k+1) 240 for CPU
(App::new pushes one initial sample), min k 240 for memory and min (k-1) 240
for network, so the network history trails the memory history by exactly one
only until the buffers reach capacity, and trails the CPU history by two;
the new aggregate counter snapshot is stored as previousCounterSnapshot
unconditionally on every tick, including the first. -/
theorem history_lengths_invariant :
    (∀ (c : ℕ) (rs : List MetricsReading),
      (runTicks (App.new c) rs).network_history.length ≤
        (runTicks (App.new c) rs).memory_history.length ∧
      (runTicks (App.new c) rs).memory_history.length ≤
        (runTicks (App.new c) rs).cpu_history.length ∧
      (runTicks (App.new c) rs).cpu_history.length =
        min (rs.length + 1) cpuHistoryLen ∧
      (runTicks (App.new c) rs).memory_history.length =
        min rs.length cpuHistoryLen ∧
      (runTicks (App.new c) rs).network_history.length =
        min (rs.length - 1) cpuHistoryLen) ∧
    (∀ (s : AppState) (r : MetricsReading),
      (update s r).prev_network_data = some (aggregateCounters r.interfaces)) := by
  constructor
  · intro c rs
    obtain ⟨h1, h2, h3, _⟩ := runTicks_shape c rs
    refine ⟨?_, ?_, h1, h2, h3⟩
    · rw [h3, h2]
      omega
    · rw [h2, h1]
      omega
  · intro s r
    exact (update_fields s r).2.2.1

lemma formatLoop_pow (fuel : ℕ) : ∀ (size : ℚ) (i : ℕ), ∃ j, i ≤ j ∧
    j ≤ max i (UNITS.length - 1) ∧
    formatLoop fuel size i = (size / 1024 ^ (j - i), j) := by
  induction fuel with
  | zero =>
    intro size i
    exact ⟨i, le_refl i, le_max_left _ _, by simp [formatLoop]⟩
  | succ fuel ih =>
    intro size i
    by_cases h : 1024 ≤ size ∧ i < UNITS.length - 1
    · obtain ⟨j, hij, hjb, heq⟩ := ih (size / 1024) (i + 1)
      refine ⟨j, by omega, by omega, ?_⟩
      have hstep : formatLoop (fuel + 1) size i = formatLoop fuel (size / 1024) (i + 1) := by
        simp [formatLoop, h]
      have hj : j - i = (j - (i + 1)) + 1 := by omega
      have hdiv : size / 1024 / 1024 ^ (j - (i + 1)) = size / 1024 ^ (j - i) := by
        rw [div_div, hj, pow_succ, mul_comm]
      rw [hstep, heq, hdiv]
    · refine ⟨i, le_refl i, le_max_left _ _, ?_⟩
      simp [formatLoop, h]

lemma processLE_trans : ∀ (a b c : String × ℚ × ℕ),
    processLE a b → processLE b c → processLE a c := by
  intro a b c hab hbc
  simp only [processLE, decide_eq_true_eq] at *
  exact le_trans hbc hab

lemma processLE_total : ∀ (a b : String × ℚ × ℕ), processLE a b || processLE b a := by
  intro a b
  simp only [processLE, Bool.or_eq_true, decide_eq_true_eq]
  exact le_total b.2.1 a.2.1

lemma top_processes_stable_filter (ps : List (String × ℚ × ℕ)) (c : ℚ) :
    (ps.mergeSort processLE).filter (fun x => decide (x.2.1 = c)) =
      ps.filter (fun x => decide (x.2.1 = c)) := by
  set p : (String × ℚ × ℕ) → Bool := fun x => decide (x.2.1 = c) with hp
  have hpair : (ps.filter p).Pairwise (fun a b => processLE a b) := by
    apply List.pairwise_of_forall_mem_list
    intro a ha b hb
    have ha2 : a.2.1 = c := by simpa [hp] using (List.mem_filter.mp ha).2
    have hb2 : b.2.1 = c := by simpa [hp] using (List.mem_filter.mp hb).2
    simp [processLE, ha2, hb2]
  have hsub : List.Sublist (ps.filter p) (ps.mergeSort processLE) :=
    List.sublist_mergeSort processLE_trans processLE_total hpair (List.filter_sublist ps)
  have hff : (ps.filter p).filter p = ps.filter p := by
    simp [List.filter_filter, Bool.and_self]
  have hsub2 : List.Sublist (ps.filter p) ((ps.mergeSort processLE).filter p) := by
    have h := hsub.filter p
    rwa [hff] at h
  have hperm : List.Perm ((ps.mergeSort processLE).filter p) (ps.filter p) :=
    (List.mergeSort_perm ps processLE).filter p
  exact (hsub2.eq_of_length hperm.length_eq.symm).symm

/-- C7: top_processes sorts by cpuPercent descending with a stable sort and
takes the first 10: the output length is min (input length) 10, the output
is pairwise sorted by CPU descending, entries with any given CPU value
appear in the output as an in-order sublist of the input entries with that
value (input order preserved on ties), and empty input gives empty
output. -/
theorem top_processes_spec (ps : List (String × ℚ × ℕ)) :
    top_processes [] = [] ∧
    (top_processes ps).length = min ps.length 10 ∧
    (top_processes ps).Pairwise (fun a b => b.2.1 ≤ a.2.1) ∧
    ∀ c : ℚ, List.Sublist ((top_processes ps).filter (fun x => decide (x.2.1 = c)))
      (ps.filter (fun x => decide (x.2.1 = c))) := by
  refine ⟨by simp [top_processes], ?_, ?_, ?_⟩
  · simp only [top_processes, List.length_take, List.length_mergeSort]
    omega
  · have hs := List.sorted_mergeSort processLE_trans processLE_total ps
    have ht : List.Sublist (top_processes ps) (ps.mergeSort processLE) := by
      simp only [top_processes]
      exact List.take_sublist 10 _
    exact (List.Pairwise.sublist ht hs).imp (fun h => by simpa [processLE] using h)
  · intro c
    have h1 : List.Sublist ((top_processes ps).filter (fun x => decide (x.2.1 = c)))
        ((ps.mergeSort processLE).filter (fun x => decide (x.2.1 = c))) := by
      simp only [top_processes]
      exact (List.take_sublist 10 _).filter _
    rwa [top_processes_stable_filter ps c] at h1

/-- C5: format_bytes renders a byte count in binary base 1024 with units
B/KB/MB/GB/TB and one decimal digit: 1024 gives "1.0 KB", 1536 gives
"1.5 KB", 1073741824 gives "1.0 GB", and every byte count n is rendered as
the one-decimal string of n / 1024 ^ i followed by the unit of index i, for
some unit index i below UNITS.length. -/
theorem format_bytes_binary_one_decimal :
    format_bytes 1024 = "1.0 KB" ∧
    format_bytes 1536 = "1.5 KB" ∧
    format_bytes 1073741824 = "1.0 GB" ∧
    ∀ n : ℕ, ∃ i, i < UNITS.length ∧
      format_bytes n = formatOneDecimal ((n : ℚ) / 1024 ^ i) ++ " " ++ UNITS.getD i "" := by
  have hd1 : formatOneDecimal 1 = "1.0" := by
    have hr : round ((1 : ℚ) * 10) = 10 := by
      rw [round_eq]
      norm_num
    simp only [formatOneDecimal, hr]
    rfl
  refine ⟨?_, ?_, ?_, ?_⟩
  · have hl : formatLoop (UNITS.length - 1) ((1024 : ℕ) : ℚ) 0 = (1, 1) := by
      norm_num [formatLoop, UNITS]
    simp only [format_bytes, hl, hd1]
    rfl
  · have hl : formatLoop (UNITS.length - 1) ((1536 : ℕ) : ℚ) 0 = (3 / 2, 1) := by
      norm_num [formatLoop, UNITS]
    have hd : formatOneDecimal (3 / 2) = "1.5" := by
      have hr : round ((3 / 2 : ℚ) * 10) = 15 := by
        rw [round_eq]
        norm_num
      simp only [formatOneDecimal, hr]
      rfl
    simp only [format_bytes, hl, hd]
    rfl
  · have hl : formatLoop (UNITS.length - 1) ((1073741824 : ℕ) : ℚ) 0 = (1, 3) := by
      norm_num [formatLoop, UNITS]
    simp only [format_bytes, hl, hd1]
    rfl
  · intro n
    obtain ⟨j, h0j, hjb, heq⟩ := formatLoop_pow (UNITS.length - 1) (n : ℚ) 0
    have hL : UNITS.length = 5 := by rfl
    refine ⟨j, by omega, ?_⟩
    simp only [format_bytes, heq, Nat.sub_zero]
